import Mathlib

/-!
# Safety Dashboard — verification of the layout and calendar/status engines

Shallow embedding of `gunppp/Safety_DashboardsV3`, a React safety-status
dashboard.  The repository contains three variants of the same component:

* `src/src/app/components/SafetyDashboard.tsx` (the main variant),
* `src/a/src/app/components/SafetyDashboard.tsx` (variant a),
* `src/b/src/app/components/SafetyDashboard.tsx` (variant b).

Pure functions (`createYearData`, `normalized`, the validators, the resize
arithmetic, `swapSlots`, `monthSummary`, `safetyStreak`, the auto-fill sweep,
the day-status cycle) are translated here as executable Lean definitions.
JavaScript numbers are modelled by `ℚ` (the resize arithmetic is exact
rational arithmetic here; the "within floating-point epsilon" guarantees of
the spec become exact equalities), array indices by `Nat`, `Date` instants by
an explicit record of calendar fields, and JSON values read back from
`localStorage` by an explicit `JsValue` tree.
-/

set_option autoImplicit false

namespace SafetyDashboard

/-- The `DayStatus` union minus `null`: the three recorded statuses. -/
inductive St where
  | safe
  | near_miss
  | accident
  deriving DecidableEq, Repr

/-- Model of `type DayStatus = 'safe' | 'near_miss' | 'accident' | null` — `null` is
`none`. -/
abbrev DayStatus := Option St

/-- Model of `interface DailyStatistic { day: number; status: DayStatus }`. -/
structure DailyStatistic where
  day : Nat
  status : DayStatus
  deriving DecidableEq, Repr

/-- Model of `interface MonthlyData { month: number, year: number, days: ... }`. -/
structure MonthlyData where
  month : Nat
  year : Int
  days : List DailyStatistic
  deriving DecidableEq, Repr

/-! ## List helpers

The TS code mutates one element of a cloned array; functionally that is
"modify the element at an index, keep everything else".  `modifyAt` is a
no-op when the index is out of range, matching the sources' explicit
`if (!month) return prev` guards. -/

/-- Apply `f` to the element at position `i`; identity out of range. -/
def modifyAt {α : Type} (l : List α) (i : Nat) (f : α → α) : List α :=
  match l, i with
  | [], _ => []
  | x :: xs, 0 => f x :: xs
  | x :: xs, n + 1 => x :: modifyAt xs n f

/-- Model of `arr.map((x, idx) => f idx x)` with indexing started at `i`. -/
def mapIdxFrom {α : Type} (f : Nat → α → α) (i : Nat) : List α → List α
  | [] => []
  | x :: xs => f i x :: mapIdxFrom f (i + 1) xs

/-- Model of `arr.map((x, idx) => f idx x)`. -/
def mapWithIndex {α : Type} (f : Nat → α → α) (l : List α) : List α :=
  mapIdxFrom f 0 l

/-- Status of day index `d` (0-based) of month index `m` in a year state;
`none` when the month or the day does not exist. -/
def statusAt (md : List MonthlyData) (m d : Nat) : Option DayStatus :=
  md[m]?.bind fun mm => mm.days[d]?.map (·.status)

/-! ## Calendar construction (`createYearData`)

`new Date(year, m + 1, 0).getDate()` evaluates to the number of days of month
`m` (0-based) of `year` under the proleptic Gregorian calendar that
JavaScript `Date` implements; for the AD years the dashboard handles, the
leap rule is `y % 4 == 0 && (y % 100 != 0 || y % 400 == 0)`. -/

/-- Gregorian leap-year rule, as JavaScript `Date` applies it. -/
def isLeapYear (y : Int) : Bool :=
  y % 4 == 0 && (y % 100 != 0 || y % 400 == 0)

/-- Day count of month `m` (0-based, `0..11`) of year `y`:
the value of `new Date(y, m + 1, 0).getDate()`. -/
def daysInMonth (y : Int) (m : Nat) : Nat :=
  [31, if isLeapYear y then 29 else 28, 31, 30, 31, 30, 31, 31, 30, 31, 30, 31].getD m 0

/-- Model of `createYearData` (identical in all three variants; variant a additionally
stores a `completed` flag, initially the vacuous truth on no `unset` day being
present only for empty months — the field is derived data and not part of
this model): 12 months, each with `daysInMonth` entries `{day: i+1, status: null}`. -/
def createYearData (year : Int) : List MonthlyData :=
  (List.range 12).map fun m =>
    { month := m
      year := year
      days := (List.range (daysInMonth year m)).map fun i => { day := i + 1, status := none } }

/-! ## Day-status cycle (`handleDayClick`, variant b lines 340–349)

```
const order: DayStatus[] = [null, "safe", "near_miss", "accident"];
const nextStatus = order[(order.indexOf(current) + 1) % order.length];
```
-/

/-- The fixed cycle order `[null, safe, near_miss, accident]`. -/
def statusOrder : List DayStatus := [none, some .safe, some .near_miss, some .accident]

/-- Model of `order.indexOf(current)` — every `DayStatus` occurs in `statusOrder`. -/
def statusIndex (s : DayStatus) : Nat := statusOrder.indexOf s

/-- One click: `order[(order.indexOf(current) + 1) % order.length]`. -/
def cycleStatus (s : DayStatus) : DayStatus :=
  statusOrder.getD ((statusIndex s + 1) % statusOrder.length) none

/-- Model of `handleDayClick(monthIndex, dayIndex)` (variant b): clone the state and
advance the one addressed day's status by `cycleStatus`. -/
def handleDayClick (md : List MonthlyData) (monthIndex dayIndex : Nat) : List MonthlyData :=
  modifyAt md monthIndex fun mm =>
    { mm with days := modifyAt mm.days dayIndex fun dd => { dd with status := cycleStatus dd.status } }

/-! ## Explicit day set (`setDayStatus`, main variant lines 395–405)

The main variant addresses the day by its 1-based `day` number inside the
currently displayed month; `month.days[day - 1]` with `day = 0` looks up
index `-1`, which is `undefined` in JS, so the guarded code returns the
previous state unchanged. -/

/-- Model of `setDayStatus(day, status)` of the main variant, with the displayed month
passed explicitly. -/
def setDayStatus (md : List MonthlyData) (displayMonth day : Nat) (status : DayStatus) :
    List MonthlyData :=
  if day = 0 then md
  else
    modifyAt md displayMonth fun mm =>
      { mm with days := modifyAt mm.days (day - 1) fun dd => { dd with status := status } }

/-! ## Auto-fill sweep (`runAutoFill`, variant b lines 263–293)

The sweep reads the wall clock; we model the instant as its calendar fields.
`now.getMonth()` is 0-based, `now.getDate()` is the 1-based day of month. -/

/-- Calendar fields of a `Date` instant, as the sweep reads them. -/
structure Instant where
  year : Int
  month : Nat
  day : Nat
  hour : Nat
  minute : Nat
  deriving DecidableEq, Repr

/-- Model of `now.getHours() > 16 || (now.getHours() === 16 && now.getMinutes() >= 0)`. -/
def cutoffPassed (t : Instant) : Bool :=
  16 < t.hour || (t.hour == 16 && 0 ≤ t.minute)

/-- Per-day rule of the sweep's `forEach` body at 0-based index `idx`
(`dayNum = idx + 1`): an `unset` day strictly before today, or today once the
16:00 cutoff has passed, becomes `safe`; every other day is untouched. -/
def autoFillDay (t : Instant) (idx : Nat) (dd : DailyStatistic) : DailyStatistic :=
  if dd.status = none && (decide (idx + 1 < t.day) || (idx + 1 == t.day && cutoffPassed t)) then
    { dd with status := some .safe }
  else dd

/-- Model of `runAutoFill` (variant b): skip entirely when the instant's year is not
the loaded `currentYear`; skip when the state does not hold 12 months;
otherwise rewrite the instant's month by `autoFillDay`.  The source clones
the whole state and mutates only the current month's days, returning the
clone when anything changed and the previous state otherwise — extensionally
the same as this functional rewrite. -/
def runAutoFill (currentYear : Int) (md : List MonthlyData) (t : Instant) : List MonthlyData :=
  if t.year ≠ currentYear then md
  else if md.length ≠ 12 then md
  else
    modifyAt md t.month fun mm => { mm with days := mapWithIndex (autoFillDay t) mm.days }

/-! ## Safety streak (`safetyStreak`, variant b lines 297–321)

The source flattens the year into `(status, date)` pairs, sorts ascending by
`date.getTime()`, and walks backward: `null` days are skipped, the first
`accident` stops the walk, and every `safe` or `near_miss` day counts.
`new Date(y, m, d).getTime()` is strictly monotone in the lexicographic order
of `(y, m, d)` in the ranges the data holds (`m ≤ 11`, `d ≤ 31`), so we model
the timestamp by the injective monotone key `y * 10000 + m * 100 + d`. -/

/-- Monotone model of `new Date(y, m, d).getTime()` for `m ≤ 11`, `d ≤ 31`. -/
def dateKey (y : Int) (m d : Nat) : Int :=
  y * 10000 + m * 100 + d

/-- The flattened `(status, date)` list, in storage order. -/
def flattenDays (md : List MonthlyData) : List (DayStatus × Int) :=
  md.flatMap fun mm => mm.days.map fun dd => (dd.status, dateKey mm.year mm.month dd.day)

/-- Insert into a list sorted ascending by the `Int` key (stable). -/
def insertByKey (p : DayStatus × Int) : List (DayStatus × Int) → List (DayStatus × Int)
  | [] => [p]
  | q :: qs => if p.2 < q.2 then p :: q :: qs else q :: insertByKey p qs

/-- Sort ascending by the date key — the model of
`flattened.sort((a, b) => a.date.getTime() - b.date.getTime())`. -/
def sortByKey : List (DayStatus × Int) → List (DayStatus × Int)
  | [] => []
  | p :: ps => insertByKey p (sortByKey ps)

/-- The backward walk, given the statuses latest-first: skip `null`, stop at
`accident`, count `safe` and `near_miss`. -/
def streakScan : List DayStatus → Nat
  | [] => 0
  | none :: rest => streakScan rest
  | some .accident :: _ => 0
  | some .safe :: rest => streakScan rest + 1
  | some .near_miss :: rest => streakScan rest + 1

/-- Model of `safetyStreak` (variant b): 0 unless the state holds 12 months, else the
backward walk over the date-sorted flattened year. -/
def safetyStreak (md : List MonthlyData) : Nat :=
  if md.length ≠ 12 then 0
  else streakScan (((sortByKey (flattenDays md)).reverse).map Prod.fst)

/-! ## Month summary (`monthSummary`, variant b lines 323–338) -/

/-- The accumulator record of the summary `reduce`. -/
structure Summary where
  safe : Nat
  nearMiss : Nat
  accident : Nat
  filled : Nat
  total : Nat
  deriving DecidableEq, Repr

/-- The all-zero accumulator. -/
def zeroSummary : Summary :=
  { safe := 0, nearMiss := 0, accident := 0, filled := 0, total := 0 }

/-- One `reduce` step of `monthSummary`. -/
def summaryStep (acc : Summary) (d : DailyStatistic) : Summary :=
  let acc := if d.status = some .safe then { acc with safe := acc.safe + 1 } else acc
  let acc := if d.status = some .near_miss then { acc with nearMiss := acc.nearMiss + 1 } else acc
  let acc := if d.status = some .accident then { acc with accident := acc.accident + 1 } else acc
  let acc := if d.status ≠ none then { acc with filled := acc.filled + 1 } else acc
  { acc with total := acc.total + 1 }

/-- The summary of a day list: `days.reduce(summaryStep, zeroSummary)`. -/
def summaryOfDays (days : List DailyStatistic) : Summary :=
  days.foldl summaryStep zeroSummary

/-- Model of `monthSummary` (variant b): zeros when the displayed month does not
exist, else the linear scan over its days. -/
def monthSummary (mm : Option MonthlyData) : Summary :=
  match mm with
  | none => zeroSummary
  | some m => summaryOfDays m.days

/-! ## Layout engine — proportional resize (main variant lines 94–99, 127–168)

A proportion group is an ordered list of percentages.  JavaScript numbers are
modelled by `ℚ`: the arithmetic of the move handler is exact here, so the
spec's "within floating-point epsilon of 100" becomes an exact `= 100`. -/

/-- Model of `clamp(n, min, max) = Math.min(max, Math.max(min, n))`. -/
def clamp (n lo hi : ℚ) : ℚ := min hi (max lo n)

/-- Model of `sum(arr)`. -/
def sumList (l : List ℚ) : ℚ := l.foldr (· + ·) 0

/-- Model of `normalized(arr)`: divide every member by the sum and rescale to 100. -/
def normalized (l : List ℚ) : List ℚ :=
  let s := sumList l
  l.map fun v => v / s * 100

/-- One `mousemove` step of the handler returned by `useResizeGroup`:
`start` is the snapshot taken at pointer-down, `index` the left/top member of
the adjacent pair, `deltaPct` the pointer delta as a percentage of the
container axis.  Mirrors main-variant lines 139–155. -/
def resizeStep (minEach : ℚ) (start : List ℚ) (index : Nat) (deltaPct : ℚ) : List ℚ :=
  let si := start.getD index 0
  let sj := start.getD (index + 1) 0
  let a0 := si + deltaPct
  -- the source's `let b = start[index+1] - deltaPct` is overwritten by
  -- `b = 100 - rest - a` before being read, so it does not appear here
  let rest := sumList start - si - sj
  let maxA := 100 - rest - minEach
  let a1 := clamp a0 minEach maxA
  let b1 := 100 - rest - a1
  let a2 := if b1 < minEach then 100 - rest - minEach else a1
  let b2 := if b1 < minEach then minEach else b1
  normalized ((start.set index a2).set (index + 1) b2)

/-! ## Layout engine — slot assignment (main variant lines 30–46, 84–92, 407–416) -/

/-- Model of `type PanelKey` — the closed panel enumeration. -/
inductive PanelKey where
  | slogan
  | safetyData
  | announcements
  | calendar
  | streak
  | policy
  | poster
  deriving DecidableEq, Repr, Fintype

/-- Model of `type SlotKey` — the fixed named layout slots. -/
inductive SlotKey where
  | leftTop
  | leftMid
  | leftBottom
  | centerTop
  | centerBottom
  | rightTop
  | rightBottom
  deriving DecidableEq, Repr, Fintype

/-- A slot assignment: the `Record<SlotKey, PanelKey>` as a total map. -/
abbrev SlotAssignment := SlotKey → PanelKey

/-- Model of `DEFAULT_SLOTS` (main variant lines 84–92). -/
def DEFAULT_SLOTS : SlotAssignment
  | .leftTop => .slogan
  | .leftMid => .policy
  | .leftBottom => .poster
  | .centerTop => .safetyData
  | .centerBottom => .announcements
  | .rightTop => .calendar
  | .rightBottom => .streak

/-- Model of `swapSlots(from, to)` (main variant lines 407–416): exchange the two
slots' panel identities, every other slot untouched. -/
def swapSlots (f : SlotAssignment) (a b : SlotKey) : SlotAssignment :=
  fun s => if s = a then f b else if s = b then f a else f s

/-- A finite sequence of swaps applied in order. -/
def applySwaps (f : SlotAssignment) : List (SlotKey × SlotKey) → SlotAssignment
  | [] => f
  | p :: ps => applySwaps (swapSlots f p.1 p.2) ps

/-! ## Persistence validation (main variant lines 48–53, 77–83, 111–125, 307–327)

The records read back from `localStorage` are arbitrary parsed JSON, so the
validators run over an explicit dynamic value tree.  JavaScript property
access on a primitive yields `undefined` (and on `null`/`undefined` it would
throw — the validators only access properties behind a truthiness guard, so
that case is unreachable; `getField` returns `vundefined` there as a harmless
total completion). -/

/-- A parsed-JSON value, plus `undefined` as produced by missing lookups. -/
inductive JsValue where
  | vundefined
  | vnull
  | vbool (b : Bool)
  | vnum (q : ℚ)
  | vstr (s : String)
  | varr (xs : List JsValue)
  | vobj (fields : List (String × JsValue))

/-- JavaScript truthiness (`NaN` is not modelled). -/
def truthy : JsValue → Bool
  | .vundefined => false
  | .vnull => false
  | .vbool b => b
  | .vnum q => !(q == 0)
  | .vstr s => !(s == "")
  | .varr _ => true
  | .vobj _ => true

/-- Model of `v[k]` for a string key: defined field of an object, else `undefined`. -/
def getField (v : JsValue) (k : String) : JsValue :=
  match v with
  | .vobj fs => (((fs.find? fun p => p.1 == k).map Prod.snd).getD .vundefined)
  | _ => .vundefined

/-- Model of `Array.isArray(v)`. -/
def isArray : JsValue → Bool
  | .varr _ => true
  | _ => false

/-- The element list of an array value (empty otherwise). -/
def arrElems : JsValue → List JsValue
  | .varr xs => xs
  | _ => []

/-- Model of `typeof v === 'number'`. -/
def isNum : JsValue → Bool
  | .vnum _ => true
  | _ => false

/-- Model of `typeof v === 'object'` — true for objects, arrays and `null`. -/
def isObjectLike : JsValue → Bool
  | .vobj _ => true
  | .varr _ => true
  | .vnull => true
  | _ => false

/-- Strict equality `v === q` against a number. -/
def eqNum (v : JsValue) (q : ℚ) : Bool :=
  match v with
  | .vnum r => r == q
  | _ => false

/-- Model of `arr.every((x, idx) => p idx x)` with indexing started at `i`. -/
def allIdxFrom (p : Nat → JsValue → Bool) (i : Nat) : List JsValue → Bool
  | [] => true
  | x :: xs => p i x && allIdxFrom p (i + 1) xs

/-- Model of `isValidMonthlyData` (main variant lines 111–115). -/
def isValidMonthlyData (v : JsValue) (year : Int) : Bool :=
  isArray v && (arrElems v).length == 12 &&
    allIdxFrom
      (fun idx m =>
        truthy m && eqNum (getField m "month") idx && eqNum (getField m "year") year &&
          isArray (getField m "days") &&
          (arrElems (getField m "days")).length == daysInMonth year idx)
      0 (arrElems v)

/-- The four proportion-group keys of the persisted layout record. -/
def layoutKeys : List String := ["cols", "leftRows", "centerRows", "rightRows"]

/-- Model of `isValidLayout` (main variant lines 116–120): every group key holds an
array whose members are all numbers.  No arity check is performed. -/
def isValidLayout (v : JsValue) : Bool :=
  truthy v && layoutKeys.all fun k => isArray (getField v k) && (arrElems (getField v k)).all isNum

/-- The seven persisted slot names, in declaration order. -/
def slotNames : List String :=
  ["leftTop", "leftMid", "leftBottom", "centerTop", "centerBottom", "rightTop", "rightBottom"]

/-- The seven persisted panel names, in declaration order. -/
def panelNames : List String :=
  ["slogan", "safetyData", "announcements", "calendar", "streak", "policy", "poster"]

/-- Model of `isValidSlots` (main variant lines 121–125): the value is a truthy
object and every declared slot maps to a member of the panel enumeration. -/
def isValidSlots (v : JsValue) : Bool :=
  truthy v && isObjectLike v &&
    slotNames.all fun s =>
      match getField v s with
      | .vstr str => panelNames.contains str
      | _ => false

/-- Model of `interface LayoutState` (main variant lines 48–53), with the tuples as
lists so wrong-arity persisted values can be represented faithfully. -/
structure LayoutState where
  cols : List ℚ
  leftRows : List ℚ
  centerRows : List ℚ
  rightRows : List ℚ
  deriving DecidableEq, Repr

/-- Model of `DEFAULT_LAYOUT` (main variant lines 77–83). -/
def DEFAULT_LAYOUT : LayoutState :=
  { cols := [28, 44, 28], leftRows := [24, 30, 46], centerRows := [62, 38], rightRows := [66, 34] }

/-- The numbers of an array value (elements are all numbers when validated). -/
def numsOf (v : JsValue) : List ℚ :=
  (arrElems v).map fun x =>
    match x with
    | .vnum q => q
    | _ => 0

/-- The layout-load effect at mount (main variant lines 307–318): a record
passing `isValidLayout` replaces the state with its normalized groups; any
other record leaves the initial `DEFAULT_LAYOUT` in place. -/
def loadLayout (v : JsValue) : LayoutState :=
  if isValidLayout v then
    { cols := normalized (numsOf (getField v "cols"))
      leftRows := normalized (numsOf (getField v "leftRows"))
      centerRows := normalized (numsOf (getField v "centerRows"))
      rightRows := normalized (numsOf (getField v "rightRows")) }
  else DEFAULT_LAYOUT

/-- The persisted name of each slot. -/
def slotName : SlotKey → String
  | .leftTop => "leftTop"
  | .leftMid => "leftMid"
  | .leftBottom => "leftBottom"
  | .centerTop => "centerTop"
  | .centerBottom => "centerBottom"
  | .rightTop => "rightTop"
  | .rightBottom => "rightBottom"

/-- Decode a persisted panel name (total completion: under `isValidSlots`
the string is always one of the seven names). -/
def panelOfString (s : String) : PanelKey :=
  if s = "slogan" then .slogan
  else if s = "safetyData" then .safetyData
  else if s = "announcements" then .announcements
  else if s = "calendar" then .calendar
  else if s = "streak" then .streak
  else if s = "policy" then .policy
  else .poster

/-- The string held by a value, defaulting to the empty string. -/
def strOfD : JsValue → String
  | .vstr s => s
  | _ => ""

/-- The slot-load effect at mount (main variant lines 320–326): a record
passing `isValidSlots` becomes the slot assignment; any other record leaves
the initial `DEFAULT_SLOTS` in place. -/
def loadSlots (v : JsValue) : SlotAssignment :=
  if isValidSlots v then fun s => panelOfString (strOfD (getField v (slotName s)))
  else DEFAULT_SLOTS

/-- The JSON encoding of `createYearData year`, with `null` statuses. -/
def encodeYearData (year : Int) : JsValue :=
  .varr ((createYearData year).map fun mm =>
    .vobj
      [("month", .vnum mm.month), ("year", .vnum (mm.year : ℚ)),
       ("days", .varr (mm.days.map fun dd => .vobj [("day", .vnum dd.day), ("status", .vnull)]))])

/-- The year-record load effect at mount (main variant line 278): a
`monthlyData` field passing `isValidMonthlyData` is used as is; any other
value is replaced by the computed default `createYearData currentYear`. -/
def loadMonthlyData (v : JsValue) (year : Int) : JsValue :=
  if isValidMonthlyData v year then v else encodeYearData year

/-- Modelled from the spec and claim wording (refinement reference, not
source code): the claim's expected shape of the persisted layout record —
every group array all-numeric *and of the declared arity*
(`cols` 3, `leftRows` 3, `centerRows` 2, `rightRows` 2). -/
def layoutShapeClaim (v : JsValue) : Bool :=
  truthy v &&
    (isArray (getField v "cols") && (arrElems (getField v "cols")).all isNum &&
      (arrElems (getField v "cols")).length == 3) &&
    (isArray (getField v "leftRows") && (arrElems (getField v "leftRows")).all isNum &&
      (arrElems (getField v "leftRows")).length == 3) &&
    (isArray (getField v "centerRows") && (arrElems (getField v "centerRows")).all isNum &&
      (arrElems (getField v "centerRows")).length == 2) &&
    (isArray (getField v "rightRows") && (arrElems (getField v "rightRows")).all isNum &&
      (arrElems (getField v "rightRows")).length == 2)

/-- Modelled from the spec's words (refinement reference, not source code):
the layout shape the code actually demands — each group key holds an
all-numeric array, with no arity requirement. -/
def layoutShapeAmended (v : JsValue) : Bool :=
  truthy v &&
    (isArray (getField v "cols") && (arrElems (getField v "cols")).all isNum) &&
    (isArray (getField v "leftRows") && (arrElems (getField v "leftRows")).all isNum) &&
    (isArray (getField v "centerRows") && (arrElems (getField v "centerRows")).all isNum) &&
    (isArray (getField v "rightRows") && (arrElems (getField v "rightRows")).all isNum)

/-- Modelled from the spec and claim wording (refinement reference):
the claim's expected shape of the persisted `monthlyData` field — exactly 12
entries whose `days` arrays match the real day-count of `(year, month)`. -/
def monthlyShapeClaim (v : JsValue) (year : Int) : Bool :=
  isArray v && (arrElems v).length == 12 &&
    allIdxFrom
      (fun idx m =>
        isArray (getField m "days") &&
          (arrElems (getField m "days")).length == daysInMonth year idx)
      0 (arrElems v)

/-- Modelled from the spec and claim wording (refinement reference):
the claim's expected shape of the persisted slot record — every declared
slot maps to a value drawn from the panel enumeration. -/
def slotsShapeClaim (v : JsValue) : Bool :=
  slotNames.all fun s =>
    match getField v s with
    | .vstr str => panelNames.contains str
    | _ => false

/-- The wrong-arity layout record of the C9 counterexample: all four groups
are all-numeric arrays, but `cols` has 2 members instead of the declared 3. -/
def badLayoutRecord : JsValue :=
  .vobj
    [("cols", .varr [.vnum 50, .vnum 50]),
     ("leftRows", .varr [.vnum 24, .vnum 30, .vnum 46]),
     ("centerRows", .varr [.vnum 62, .vnum 38]),
     ("rightRows", .varr [.vnum 66, .vnum 34])]

/-! ## Concrete states used by the reference-output checks -/

/-- A month record with no days (months that play no role in a check). -/
def emptyMonth (y : Int) (m : Nat) : MonthlyData :=
  { month := m, year := y, days := [] }

/-- A 12-month state of year 2025 whose only recorded days are the trailing
days of December, with the given chronological statuses. -/
def streakState (sts : List DayStatus) : List MonthlyData :=
  ((List.range 11).map fun m => emptyMonth 2025 m) ++
    [{ month := 11, year := 2025,
       days := sts.enum.map fun p => { day := p.1 + 1, status := p.2 } }]

/-- The spec's `monthSummary` example day list:
`[safe, safe, near_miss, accident, unset]`. -/
def exampleDays : List DailyStatistic :=
  [{ day := 1, status := some .safe }, { day := 2, status := some .safe },
   { day := 3, status := some .near_miss }, { day := 4, status := some .accident },
   { day := 5, status := none }]

/-! ## Shared list lemmas -/

theorem length_modifyAt {α : Type} (l : List α) (i : Nat) (f : α → α) :
    (modifyAt l i f).length = l.length := by
  induction l generalizing i with
  | nil => rfl
  | cons x xs ih =>
    cases i with
    | zero => rfl
    | succ n => simpa [modifyAt] using ih n

theorem getElem?_modifyAt_self {α : Type} (l : List α) (i : Nat) (f : α → α) :
    (modifyAt l i f)[i]? = l[i]?.map f := by
  induction l generalizing i with
  | nil => rfl
  | cons x xs ih =>
    cases i with
    | zero => simp [modifyAt]
    | succ n => simpa [modifyAt] using ih n

theorem getElem?_modifyAt_ne {α : Type} (l : List α) (i j : Nat) (f : α → α) (h : j ≠ i) :
    (modifyAt l i f)[j]? = l[j]? := by
  induction l generalizing i j with
  | nil => rfl
  | cons x xs ih =>
    cases i with
    | zero =>
      cases j with
      | zero => exact absurd rfl h
      | succ m => simp [modifyAt]
    | succ n =>
      cases j with
      | zero => simp [modifyAt]
      | succ m =>
        have : m ≠ n := fun hc => h (by simp [hc])
        simpa [modifyAt] using ih n m this

theorem modifyAt_modifyAt {α : Type} (l : List α) (i : Nat) (f g : α → α) :
    modifyAt (modifyAt l i f) i g = modifyAt l i fun x => g (f x) := by
  induction l generalizing i with
  | nil => rfl
  | cons x xs ih =>
    cases i with
    | zero => rfl
    | succ n => simpa [modifyAt] using ih n

theorem getElem?_mapIdxFrom {α : Type} (f : Nat → α → α) (i j : Nat) (l : List α) :
    (mapIdxFrom f i l)[j]? = l[j]?.map (f (i + j)) := by
  induction l generalizing i j with
  | nil => rfl
  | cons x xs ih =>
    cases j with
    | zero => simp [mapIdxFrom]
    | succ m =>
      have := ih (i + 1) m
      simpa [mapIdxFrom, Nat.add_assoc, Nat.add_comm 1 m] using this

theorem mapIdxFrom_mapIdxFrom {α : Type} (f : Nat → α → α)
    (hf : ∀ i x, f i (f i x) = f i x) (i : Nat) (l : List α) :
    mapIdxFrom f i (mapIdxFrom f i l) = mapIdxFrom f i l := by
  induction l generalizing i with
  | nil => rfl
  | cons x xs ih => simp [mapIdxFrom, hf, ih]

theorem sumList_set (l : List ℚ) (i : Nat) (a : ℚ) (h : i < l.length) :
    sumList (l.set i a) = sumList l - l.getD i 0 + a := by
  induction l generalizing i with
  | nil => simp at h
  | cons x xs ih =>
    cases i with
    | zero => simp [sumList]; ring
    | succ n =>
      have hn : n < xs.length := Nat.lt_of_succ_lt_succ h
      have := ih n hn
      simp only [List.set, sumList, List.foldr] at this ⊢
      simp [List.getD_cons_succ, this]
      ring

theorem getD_set_ne (l : List ℚ) (i j : Nat) (a : ℚ) (h : j ≠ i) :
    (l.set i a).getD j 0 = l.getD j 0 := by
  induction l generalizing i j with
  | nil => rfl
  | cons x xs ih =>
    cases i with
    | zero =>
      cases j with
      | zero => exact absurd rfl h
      | succ m => rfl
    | succ n =>
      cases j with
      | zero => rfl
      | succ m =>
        have : m ≠ n := fun hc => h (by simp [hc])
        simpa using ih n m this

theorem mem_of_mem_set {α : Type} (l : List α) (i : Nat) (a v : α) (h : v ∈ l.set i a) :
    v = a ∨ v ∈ l := by
  induction l generalizing i with
  | nil => simp at h
  | cons x xs ih =>
    cases i with
    | zero =>
      rcases List.mem_cons.mp h with h | h
      · exact Or.inl h
      · exact Or.inr (List.mem_cons_of_mem _ h)
    | succ n =>
      rcases List.mem_cons.mp h with h | h
      · exact Or.inr (h ▸ List.mem_cons_self _ _)
      · rcases ih n h with h | h
        · exact Or.inl h
        · exact Or.inr (List.mem_cons_of_mem _ h)

theorem getD_mem (l : List ℚ) (i : Nat) (h : i < l.length) : l.getD i 0 ∈ l := by
  induction l generalizing i with
  | nil => simp at h
  | cons x xs ih =>
    cases i with
    | zero => exact List.mem_cons_self _ _
    | succ n => exact List.mem_cons_of_mem _ (ih n (Nat.lt_of_succ_lt_succ h))

theorem normalized_of_sum_100 (l : List ℚ) (h : sumList l = 100) : normalized l = l := by
  unfold normalized
  rw [h]
  have : ∀ v : ℚ, v / 100 * 100 = v := fun v => div_mul_cancel₀ v (by norm_num)
  simp [this]

/-- February record of 2024, as `createYearData` builds it (witness data). -/
def febWitnessRecord : MonthlyData :=
  { month := 1, year := 2024,
    days := (List.range 29).map fun i => { day := i + 1, status := none } }

/-! ## Claim theorems -/

/-- C4: `safetyStreak` (variant b) matches the spec's reference outputs —
with the trailing recorded days chronologically `[safe, safe, accident, safe]`
the streak is 1, and with `[safe, near_miss, safe]` it is 3 (`near_miss`
counts as a no-accident day). -/
theorem safetyStreak_reference_outputs :
    safetyStreak (streakState [some .safe, some .safe, some .accident, some .safe]) = 1 ∧
    safetyStreak (streakState [some .safe, some .near_miss, some .safe]) = 3 := by
  decide

/-- Any status cycles back to itself after four clicks. -/
theorem cycleStatus_four (s : DayStatus) :
    cycleStatus (cycleStatus (cycleStatus (cycleStatus s))) = s := by
  rcases s with _ | st
  · rfl
  · cases st <;> rfl

/-- One click advances the addressed day's status by `cycleStatus`. -/
theorem statusAt_handleDayClick (md : List MonthlyData) (m d : Nat) (st : DayStatus)
    (h : statusAt md m d = some st) :
    statusAt (handleDayClick md m d) m d = some (cycleStatus st) := by
  unfold statusAt at h ⊢
  unfold handleDayClick
  rw [getElem?_modifyAt_self]
  cases hm : md[m]? with
  | none => rw [hm] at h; simp at h
  | some mm =>
    rw [hm] at h
    simp only [Option.some_bind] at h
    cases hd : mm.days[d]? with
    | none => rw [hd] at h; simp at h
    | some dd =>
      rw [hd] at h
      have hst : dd.status = st := by simpa using h
      simp [getElem?_modifyAt_self, hd, hst]

/-- C7: for every month index, day index and starting status, four
applications of the click-cycle return the day to its original status. -/
theorem cycleDayStatus_four_times_identity :
    ∀ (md : List MonthlyData) (m d : Nat) (st : DayStatus),
      statusAt md m d = some st →
      statusAt
        (handleDayClick (handleDayClick (handleDayClick (handleDayClick md m d) m d) m d) m d)
        m d = some st := by
  intro md m d st h
  have h1 := statusAt_handleDayClick md m d st h
  have h2 := statusAt_handleDayClick _ m d _ h1
  have h3 := statusAt_handleDayClick _ m d _ h2
  have h4 := statusAt_handleDayClick _ m d _ h3
  rw [h4, cycleStatus_four]

/-- C7 witness: four clicks on day 1 of January 2025 leave it `unset`. -/
theorem cycleDayStatus_four_times_identity_witness :
    statusAt
      (handleDayClick
        (handleDayClick (handleDayClick (handleDayClick (createYearData 2025) 0 0) 0 0) 0 0)
        0 0) 0 0 = some none :=
  cycleDayStatus_four_times_identity (createYearData 2025) 0 0 none (by decide)

/-- C6: `createYearData(Y)` yields exactly 12 records; record `m` carries
`month = m`, `year = Y`, and a `days` array sized to the calendar day-count
of `(Y, m)` — February has 29 days in 2024 and 28 in 2025 — with every day
`unset`. -/
theorem createYearData_shape :
    ∀ (y : Int),
      (createYearData y).length = 12 ∧
      (∀ (m : Nat) (r : MonthlyData), (createYearData y)[m]? = some r →
        r.month = m ∧ r.year = y ∧ r.days.length = daysInMonth y m ∧
          ∀ dd ∈ r.days, dd.status = none) ∧
      daysInMonth 2024 1 = 29 ∧ daysInMonth 2025 1 = 28 := by
  intro y
  refine ⟨by simp [createYearData], ?_, by decide, by decide⟩
  intro m r h
  unfold createYearData at h
  rw [List.getElem?_map] at h
  cases hm : (List.range 12)[m]? with
  | none => rw [hm] at h; simp at h
  | some k =>
    have hk : k = m := by
      by_cases hlt : m < 12
      · rw [List.getElem?_range hlt] at hm
        exact (Option.some_inj.mp hm).symm
      · rw [List.getElem?_eq_none (by simpa using Nat.le_of_not_lt hlt)] at hm
        cases hm
    rw [hm, hk] at h
    have h2 :
        ({ month := m, year := y,
           days := (List.range (daysInMonth y m)).map
             fun i => { day := i + 1, status := none } } : MonthlyData) = r := by
      simpa using h
    cases h2
    refine ⟨rfl, rfl, by simp, ?_⟩
    intro dd hdd
    rcases List.mem_map.mp hdd with ⟨i, _, rfl⟩
    rfl

/-- C6 witness: the February 2024 record has `month = 1`, 29 days, and its
first day is `unset`. -/
theorem createYearData_shape_witness :
    febWitnessRecord.month = 1 ∧ febWitnessRecord.days.length = daysInMonth 2024 1 ∧
      ({ day := 1, status := (none : DayStatus) } : DailyStatistic).status = none := by
  have h := (createYearData_shape 2024).2.1 1 febWitnessRecord (by decide)
  exact ⟨h.1, h.2.2.1, h.2.2.2 _ (by decide)⟩

/-- The summary `reduce` adds each status's occurrence count fieldwise. -/
theorem foldl_summaryStep (l : List DailyStatistic) :
    ∀ acc : Summary,
      l.foldl summaryStep acc =
        { safe := acc.safe + l.countP (fun dd => dd.status == some .safe)
          nearMiss := acc.nearMiss + l.countP (fun dd => dd.status == some .near_miss)
          accident := acc.accident + l.countP (fun dd => dd.status == some .accident)
          filled := acc.filled + l.countP (fun dd => dd.status != none)
          total := acc.total + l.length } := by
  induction l with
  | nil => intro acc; simp
  | cons dd xs ih =>
    intro acc
    rw [List.foldl_cons, ih]
    rcases hs : dd.status with _ | s
    · simp [summaryStep, hs, List.countP_cons, Summary.mk.injEq]
      omega
    · cases s <;> simp [summaryStep, hs, List.countP_cons, Summary.mk.injEq] <;> omega

/-- A day is filled exactly when it holds one of the three statuses. -/
theorem countP_filled_split (l : List DailyStatistic) :
    l.countP (fun dd => dd.status != none) =
      l.countP (fun dd => dd.status == some .safe) +
        l.countP (fun dd => dd.status == some .near_miss) +
        l.countP (fun dd => dd.status == some .accident) := by
  induction l with
  | nil => simp
  | cons dd xs ih =>
    rcases hs : dd.status with _ | s
    · simp [List.countP_cons, hs, ih]
    · cases s <;> simp [List.countP_cons, hs, ih] <;> omega

/-- C8: `monthSummary` returns the per-status counts of a linear scan, with
`filled = safe + near_miss + accident` and `total = days.length`; on
`[safe, safe, near_miss, accident, unset]` it returns
`{safe := 2, nearMiss := 1, accident := 1, filled := 4, total := 5}`. -/
theorem monthSummary_counts :
    (∀ mm : MonthlyData,
      (monthSummary (some mm)).safe = mm.days.countP (fun dd => dd.status == some .safe) ∧
      (monthSummary (some mm)).nearMiss =
        mm.days.countP (fun dd => dd.status == some .near_miss) ∧
      (monthSummary (some mm)).accident =
        mm.days.countP (fun dd => dd.status == some .accident) ∧
      (monthSummary (some mm)).filled =
        (monthSummary (some mm)).safe + (monthSummary (some mm)).nearMiss +
          (monthSummary (some mm)).accident ∧
      (monthSummary (some mm)).total = mm.days.length) ∧
    monthSummary (some { month := 0, year := 2025, days := exampleDays }) =
      { safe := 2, nearMiss := 1, accident := 1, filled := 4, total := 5 } := by
  constructor
  · intro mm
    have h := foldl_summaryStep mm.days zeroSummary
    have hsplit := countP_filled_split mm.days
    simp only [monthSummary, summaryOfDays]
    rw [h]
    refine ⟨?_, ?_, ?_, ?_, ?_⟩ <;> simp [zeroSummary, hsplit]
  · decide

/-- Swapping by `swapSlots` is the pre-composition with the transposition of the two
slots. -/
theorem swapSlots_eq_comp (f : SlotAssignment) (a b : SlotKey) :
    swapSlots f a b = f ∘ fun s => if s = a then b else if s = b then a else s := by
  funext s
  simp only [swapSlots, Function.comp]
  split_ifs <;> rfl

/-- The slot transposition is involutive. -/
theorem slotTransposition_involutive :
    ∀ a b s : SlotKey,
      (fun s => if s = a then b else if s = b then a else s)
        ((fun s => if s = a then b else if s = b then a else s) s) = s := by
  decide

/-- A swap preserves bijectivity of the assignment. -/
theorem swapSlots_bijective (f : SlotAssignment) (a b : SlotKey)
    (hf : Function.Bijective f) : Function.Bijective (swapSlots f a b) := by
  rw [swapSlots_eq_comp]
  exact hf.comp (Function.Involutive.bijective (slotTransposition_involutive a b))

/-- C5: swapping the same pair twice restores any assignment, and starting
from `DEFAULT_SLOTS` the slot→panel map stays a bijection under any finite
swap sequence. -/
theorem swapSlots_involution_and_bijective :
    (∀ (f : SlotAssignment) (a b : SlotKey), swapSlots (swapSlots f a b) a b = f) ∧
    ∀ l : List (SlotKey × SlotKey), Function.Bijective (applySwaps DEFAULT_SLOTS l) := by
  constructor
  · intro f a b
    funext s
    by_cases hsa : s = a
    · subst hsa
      by_cases hab : s = b
      · subst hab; simp [swapSlots]
      · simp [swapSlots, hab, Ne.symm hab]
    · by_cases hsb : s = b
      · subst hsb; simp [swapSlots, hsa]
      · simp [swapSlots, hsa, hsb]
  · have hstep : ∀ (l : List (SlotKey × SlotKey)) (f : SlotAssignment),
        Function.Bijective f → Function.Bijective (applySwaps f l) := by
      intro l
      induction l with
      | nil => intro f hf; exact hf
      | cons p ps ih =>
        intro f hf
        exact ih (swapSlots f p.1 p.2) (swapSlots_bijective f p.1 p.2 hf)
    intro l
    exact hstep l DEFAULT_SLOTS (by decide)

/-- The minute term of the cutoff is vacuous: the cutoff is `hour ≥ 16`. -/
theorem cutoffPassed_iff (t : Instant) : cutoffPassed t = true ↔ 16 ≤ t.hour := by
  simp [cutoffPassed]
  omega

/-- The sweep's per-day rewrite, as an explicit conditional on the status. -/
theorem autoFillDay_status (t : Instant) (idx : Nat) (dd : DailyStatistic) :
    (autoFillDay t idx dd).status =
      if dd.status = none ∧ (idx + 1 < t.day ∨ (idx + 1 = t.day ∧ 16 ≤ t.hour)) then some .safe
      else dd.status := by
  have hc := cutoffPassed_iff t
  unfold autoFillDay
  by_cases h : dd.status = none ∧ (idx + 1 < t.day ∨ (idx + 1 = t.day ∧ 16 ≤ t.hour))
  · rw [if_pos h, if_pos]
    simp only [Bool.and_eq_true, Bool.or_eq_true, decide_eq_true_eq, beq_iff_eq, hc]
    exact h
  · rw [if_neg h, if_neg]
    intro hb
    apply h
    simpa only [Bool.and_eq_true, Bool.or_eq_true, decide_eq_true_eq, beq_iff_eq, hc] using hb

/-- C2: with the loaded year matching the instant's year and a 12-month
state, the sweep (`runAutoFill`, variant b) sets every `unset` day of the
instant's month strictly before today to `safe`, sets today to `safe`
exactly when it is `unset` and the hour is ≥ 16, and leaves every other day
of the month its old status; with a mismatching year it changes nothing. -/
theorem runAutoFill_marks_past_and_today :
    ∀ (y : Int) (md : List MonthlyData) (t : Instant),
      (t.year ≠ y → runAutoFill y md t = md) ∧
      (t.year = y → md.length = 12 →
        ∀ (d : Nat) (st : DayStatus), statusAt md t.month d = some st →
          statusAt (runAutoFill y md t) t.month d =
            some (if st = none ∧ (d + 1 < t.day ∨ (d + 1 = t.day ∧ 16 ≤ t.hour)) then some .safe
                  else st)) := by
  intro y md t
  constructor
  · intro hne
    rw [runAutoFill, if_pos hne]
  · intro hy hlen d st hst
    rw [runAutoFill, if_neg (fun hne => hne hy), if_neg (fun hne => hne hlen)]
    unfold statusAt at hst ⊢
    rw [getElem?_modifyAt_self]
    cases hm : md[t.month]? with
    | none => rw [hm] at hst; simp at hst
    | some mm =>
      rw [hm] at hst
      simp only [Option.some_bind] at hst
      cases hd : mm.days[d]? with
      | none => rw [hd] at hst; simp at hst
      | some dd =>
        rw [hd] at hst
        have hdd : dd.status = st := by simpa using hst
        simp only [Option.map_some', Option.some_bind, mapWithIndex, getElem?_mapIdxFrom, hd,
          Option.some_inj]
        rw [Nat.zero_add, autoFillDay_status, hdd]

/-- C2 witness: at 17:00 on June 10, 2025, day 4 of June (an `unset` past
day) is rewritten as the characterization states. -/
theorem runAutoFill_marks_past_and_today_witness :
    statusAt (runAutoFill 2025 (createYearData 2025) ⟨2025, 5, 10, 17, 0⟩) 5 3 =
      some
        (if (none : DayStatus) = none ∧ (3 + 1 < 10 ∨ (3 + 1 = 10 ∧ 16 ≤ 17)) then some St.safe
         else none) :=
  (runAutoFill_marks_past_and_today 2025 (createYearData 2025) ⟨2025, 5, 10, 17, 0⟩).2 rfl
    (by decide) 3 none (by decide)

/-- The sweep's per-day rewrite is idempotent. -/
theorem autoFillDay_idem (t : Instant) (idx : Nat) (dd : DailyStatistic) :
    autoFillDay t idx (autoFillDay t idx dd) = autoFillDay t idx dd := by
  unfold autoFillDay
  split
  · simp
  · rfl

/-- C3: running the sweep twice at the same instant equals running it once,
and the sweep only ever moves a day from `unset` to `safe` — a day holding
`safe`, `near_miss` or `accident` is never changed. -/
theorem runAutoFill_idempotent_and_monotone :
    ∀ (y : Int) (md : List MonthlyData) (t : Instant),
      runAutoFill y (runAutoFill y md t) t = runAutoFill y md t ∧
      ∀ (m d : Nat) (st st' : DayStatus),
        statusAt md m d = some st → statusAt (runAutoFill y md t) m d = some st' →
        st' = st ∨ (st = none ∧ st' = some St.safe) := by
  intro y md t
  constructor
  · by_cases hy : t.year ≠ y
    · have hmd : runAutoFill y md t = md := by rw [runAutoFill, if_pos hy]
      rw [hmd]
      exact hmd
    · by_cases hlen : md.length ≠ 12
      · have hmd : runAutoFill y md t = md := by rw [runAutoFill, if_neg hy, if_pos hlen]
        rw [hmd]
        exact hmd
      · have hmd :
            runAutoFill y md t =
              modifyAt md t.month fun mm =>
                { mm with days := mapWithIndex (autoFillDay t) mm.days } := by
          rw [runAutoFill, if_neg hy, if_neg hlen]
        rw [hmd, runAutoFill, if_neg hy,
          if_neg (show ¬(modifyAt md t.month fun mm =>
              { mm with days := mapWithIndex (autoFillDay t) mm.days }).length ≠ 12 by
            rw [length_modifyAt]; exact hlen)]
        rw [modifyAt_modifyAt]
        congr 1
        funext mm
        simp only [mapWithIndex]
        rw [mapIdxFrom_mapIdxFrom (autoFillDay t) (autoFillDay_idem t) 0 mm.days]
  · intro m d st st' hst hst'
    by_cases hy : t.year ≠ y
    · rw [runAutoFill, if_pos hy, hst] at hst'
      exact Or.inl (Option.some_inj.mp hst').symm
    · by_cases hlen : md.length ≠ 12
      · rw [runAutoFill, if_neg hy, if_pos hlen, hst] at hst'
        exact Or.inl (Option.some_inj.mp hst').symm
      · rw [runAutoFill, if_neg hy, if_neg hlen] at hst'
        by_cases hmt : m = t.month
        · subst hmt
          unfold statusAt at hst hst'
          rw [getElem?_modifyAt_self] at hst'
          cases hm : md[t.month]? with
          | none => rw [hm] at hst; simp at hst
          | some mm =>
            rw [hm] at hst hst'
            simp only [Option.some_bind] at hst
            simp only [Option.map_some', Option.some_bind, mapWithIndex, getElem?_mapIdxFrom]
              at hst'
            cases hd : mm.days[d]? with
            | none => rw [hd] at hst; simp at hst
            | some dd =>
              rw [hd] at hst hst'
              have hdd : dd.status = st := by simpa using hst
              have hdd' : (autoFillDay t (0 + d) dd).status = st' := by simpa using hst'
              rw [Nat.zero_add, autoFillDay_status, hdd] at hdd'
              by_cases hc : st = none ∧ (d + 1 < t.day ∨ (d + 1 = t.day ∧ 16 ≤ t.hour))
              · rw [if_pos hc] at hdd'
                exact Or.inr ⟨hc.1, hdd'.symm⟩
              · rw [if_neg hc] at hdd'
                exact Or.inl hdd'.symm
        · unfold statusAt at hst hst'
          rw [getElem?_modifyAt_ne md t.month m _ hmt, hst] at hst'
          exact Or.inl (Option.some_inj.mp hst').symm

/-- C3 witness: at 17:00 on June 10, 2025, the second sweep is a no-op, and
day 4 of June moved from `unset` to `safe`. -/
theorem runAutoFill_idempotent_and_monotone_witness :
    (runAutoFill 2025 (runAutoFill 2025 (createYearData 2025) ⟨2025, 5, 10, 17, 0⟩)
        ⟨2025, 5, 10, 17, 0⟩ =
      runAutoFill 2025 (createYearData 2025) ⟨2025, 5, 10, 17, 0⟩) ∧
    ((some St.safe : DayStatus) = none ∨
      ((none : DayStatus) = none ∧ (some St.safe : DayStatus) = some St.safe)) := by
  have h := runAutoFill_idempotent_and_monotone 2025 (createYearData 2025) ⟨2025, 5, 10, 17, 0⟩
  refine ⟨h.1, ?_⟩
  exact h.2 5 3 none (some St.safe) (by decide) (by decide)

/-- Mapping a projection that the modification preserves commutes away the
modification. -/
theorem map_modifyAt {α β : Type} (l : List α) (i : Nat) (g : α → α) (h : α → β)
    (hg : ∀ x, h (g x) = h x) : (modifyAt l i g).map h = l.map h := by
  induction l generalizing i with
  | nil => rfl
  | cons x xs ih =>
    cases i with
    | zero => simp [modifyAt, hg]
    | succ n => simp [modifyAt, ih n]

/-- C10: one `setDayStatus` mutation (main variant) or one click-cycle
mutation (variant b) changes at most the addressed day's status — every
other day of every month keeps its status, and every month record keeps its
`month` and `year` fields. -/
theorem dayMutation_frame :
    ∀ (md : List MonthlyData) (dispM day dIdx : Nat) (st : DayStatus) (mIdx dIdx2 : Nat),
      (¬(mIdx = dispM ∧ dIdx2 + 1 = day) →
        statusAt (setDayStatus md dispM day st) mIdx dIdx2 = statusAt md mIdx dIdx2) ∧
      ((setDayStatus md dispM day st).map (fun mm => (mm.month, mm.year)) =
        md.map fun mm => (mm.month, mm.year)) ∧
      (¬(mIdx = dispM ∧ dIdx2 = dIdx) →
        statusAt (handleDayClick md dispM dIdx) mIdx dIdx2 = statusAt md mIdx dIdx2) ∧
      ((handleDayClick md dispM dIdx).map (fun mm => (mm.month, mm.year)) =
        md.map fun mm => (mm.month, mm.year)) := by
  intro md dispM day dIdx st mIdx dIdx2
  refine ⟨?_, ?_, ?_, ?_⟩
  · intro hne
    unfold setDayStatus
    by_cases hday : day = 0
    · rw [if_pos hday]
    · rw [if_neg hday]
      unfold statusAt
      by_cases hm : mIdx = dispM
      · subst hm
        rw [getElem?_modifyAt_self]
        cases hmm : md[mIdx]? with
        | none => rfl
        | some mm =>
          simp only [Option.map_some', Option.some_bind]
          have hd2 : dIdx2 ≠ day - 1 := by
            intro hc
            exact hne ⟨rfl, by omega⟩
          rw [getElem?_modifyAt_ne _ _ _ _ hd2]
      · rw [getElem?_modifyAt_ne _ _ _ _ hm]
  · unfold setDayStatus
    by_cases hday : day = 0
    · rw [if_pos hday]
    · rw [if_neg hday]
      exact map_modifyAt _ _ _ _ fun mm => rfl
  · intro hne
    unfold handleDayClick statusAt
    by_cases hm : mIdx = dispM
    · subst hm
      rw [getElem?_modifyAt_self]
      cases hmm : md[mIdx]? with
      | none => rfl
      | some mm =>
        simp only [Option.map_some', Option.some_bind]
        have hd2 : dIdx2 ≠ dIdx := fun hc => hne ⟨rfl, hc⟩
        rw [getElem?_modifyAt_ne _ _ _ _ hd2]
    · rw [getElem?_modifyAt_ne _ _ _ _ hm]
  · exact map_modifyAt _ _ _ _ fun mm => rfl

/-- C10 witness: setting day 1 of January 2025 to `safe` (and one click on
the same day) leaves day 1 of February untouched and all month/year fields
intact. -/
theorem dayMutation_frame_witness :
    (statusAt (setDayStatus (createYearData 2025) 0 1 (some St.safe) : List MonthlyData) 1 0 =
      statusAt (createYearData 2025) 1 0) ∧
    ((setDayStatus (createYearData 2025) 0 1 (some St.safe)).map
        (fun mm => (mm.month, mm.year)) =
      (createYearData 2025).map fun mm => (mm.month, mm.year)) ∧
    (statusAt (handleDayClick (createYearData 2025) 0 0) 1 0 =
      statusAt (createYearData 2025) 1 0) := by
  have h := dayMutation_frame (createYearData 2025) 0 1 0 (some St.safe) 1 0
  exact ⟨h.1 (by simp), h.2.1, h.2.2.1 (by simp)⟩

/-- Clamping lands in `[lo, hi]` whenever the interval is nonempty. -/
theorem clamp_mem (n lo hi : ℚ) (h : lo ≤ hi) : lo ≤ clamp n lo hi ∧ clamp n lo hi ≤ hi :=
  ⟨le_min h (le_max_left lo n), min_le_left hi (max lo n)⟩

/-- C1: a resize-move step on a proportion group that sums to 100 with every
member at least `minEach` leaves the group summing to exactly 100 (the
floating-point-epsilon tolerance of the spec is exact in `ℚ`) with no member
strictly below `minEach`, for every pointer delta. -/
theorem resize_keeps_sum_and_min :
    ∀ (minEach : ℚ) (start : List ℚ) (index : Nat) (deltaPct : ℚ),
      index + 1 < start.length → sumList start = 100 → (∀ v ∈ start, minEach ≤ v) →
      sumList (resizeStep minEach start index deltaPct) = 100 ∧
      ∀ v ∈ resizeStep minEach start index deltaPct, minEach ≤ v := by
  intro minEach start i delta hlen hsum hmin
  have hi : i < start.length := Nat.lt_of_succ_lt hlen
  have hsi_min : minEach ≤ start.getD i 0 := hmin _ (getD_mem start i hi)
  have hsj_min : minEach ≤ start.getD (i + 1) 0 := hmin _ (getD_mem start (i + 1) hlen)
  simp only [resizeStep]
  set rest := sumList start - start.getD i 0 - start.getD (i + 1) 0 with hrestEq
  set a1 := clamp (start.getD i 0 + delta) minEach (100 - rest - minEach) with ha1Eq
  set b1 := 100 - rest - a1 with hb1Eq
  have hrest : rest = 100 - start.getD i 0 - start.getD (i + 1) 0 := by
    rw [hrestEq, hsum]
  have hminmax : minEach ≤ 100 - rest - minEach := by
    rw [hrest]
    linarith
  have ha1 := clamp_mem (start.getD i 0 + delta) minEach (100 - rest - minEach) hminmax
  rw [← ha1Eq] at ha1
  have hb1 : minEach ≤ b1 := by
    rw [hb1Eq]
    linarith [ha1.2]
  rw [if_neg (not_lt.mpr hb1), if_neg (not_lt.mpr hb1)]
  have hsum2 : sumList ((start.set i a1).set (i + 1) b1) = 100 := by
    rw [sumList_set _ (i + 1) b1 (by rw [List.length_set]; exact hlen),
      getD_set_ne start i (i + 1) a1 (by omega), sumList_set start i a1 hi, hb1Eq, hrestEq]
    ring
  rw [normalized_of_sum_100 _ hsum2]
  refine ⟨hsum2, ?_⟩
  intro v hv
  rcases mem_of_mem_set _ _ _ _ hv with rfl | hv2
  · exact hb1
  rcases mem_of_mem_set _ _ _ _ hv2 with rfl | hv3
  · exact ha1.1
  · exact hmin _ hv3

/-- C1 witness: dragging the first splitter of the default column group
`[28, 44, 28]` (minimum 18) by +5 percentage points keeps the sum at 100 and
every column at least 18. -/
theorem resize_keeps_sum_and_min_witness :
    sumList (resizeStep 18 [28, 44, 28] 0 5) = 100 ∧
      ∀ v ∈ resizeStep 18 [28, 44, 28] 0 5, (18 : ℚ) ≤ v := by
  apply resize_keeps_sum_and_min 18 [28, 44, 28] 0 5
  · decide
  · norm_num [sumList]
  · intro v hv
    simp only [List.mem_cons, List.not_mem_nil, or_false] at hv
    rcases hv with rfl | rfl | rfl <;> norm_num

/-- An `every` check with a pointwise-weaker predicate stays true. -/
theorem allIdxFrom_mono (p q : Nat → JsValue → Bool)
    (h : ∀ i x, p i x = true → q i x = true) :
    ∀ (i : Nat) (l : List JsValue), allIdxFrom p i l = true → allIdxFrom q i l = true := by
  intro i l
  induction l generalizing i with
  | nil => intro _; rfl
  | cons x xs ih =>
    intro hall
    simp only [allIdxFrom, Bool.and_eq_true] at hall ⊢
    exact ⟨h _ _ hall.1, ih _ hall.2⟩

/-- A record accepted by `isValidMonthlyData` has the claim's monthly shape. -/
theorem isValidMonthlyData_shape (v : JsValue) (y : Int)
    (h : isValidMonthlyData v y = true) : monthlyShapeClaim v y = true := by
  unfold isValidMonthlyData at h
  unfold monthlyShapeClaim
  simp only [Bool.and_eq_true] at h ⊢
  refine ⟨⟨h.1.1, h.1.2⟩, ?_⟩
  refine allIdxFrom_mono _ _ (fun i x hx => ?_) 0 _ h.2
  simp only [Bool.and_eq_true] at hx ⊢
  exact ⟨hx.1.2, hx.2⟩

/-- A record accepted by `isValidLayout` has the amended layout shape. -/
theorem isValidLayout_shape (v : JsValue) (h : isValidLayout v = true) :
    layoutShapeAmended v = true := by
  unfold isValidLayout at h
  unfold layoutShapeAmended
  simp only [layoutKeys, List.all_cons, List.all_nil, Bool.and_true, Bool.and_eq_true] at h ⊢
  tauto

/-- A record accepted by `isValidSlots` has the claim's slot shape. -/
theorem isValidSlots_shape (v : JsValue) (h : isValidSlots v = true) :
    slotsShapeClaim v = true := by
  unfold isValidSlots at h
  unfold slotsShapeClaim
  simp only [Bool.and_eq_true] at h
  exact h.2

/-- C9 counterexample: the persisted layout record whose `cols` array holds
2 numbers instead of the declared 3 fails the claim's expected shape, yet
`isValidLayout` accepts it and the load does **not** fall back to
`DEFAULT_LAYOUT` — arity is never checked. -/
theorem layout_arity_not_rejected :
    layoutShapeClaim badLayoutRecord = false ∧ isValidLayout badLayoutRecord = true ∧
      loadLayout badLayoutRecord ≠ DEFAULT_LAYOUT := by
  refine ⟨by decide, by decide, ?_⟩
  intro h
  have hv : isValidLayout badLayoutRecord = true := by decide
  have hc := congrArg LayoutState.cols h
  rw [loadLayout, if_pos hv] at hc
  simp [badLayoutRecord, getField, numsOf, arrElems, normalized, sumList, DEFAULT_LAYOUT] at hc

/-- C9 as amended: a persisted record failing the shape the validators do
demand — `monthlyData` with 12 entries whose `days` arrays match the real
day-counts, layout groups as all-numeric arrays (of any arity), a slot map
covering every declared slot with a declared panel name — is rejected, and
the computed default is used instead; the loaders are total functions, so
loading never throws. -/
theorem load_falls_back_to_defaults :
    ∀ (v : JsValue) (y : Int),
      (monthlyShapeClaim v y = false → loadMonthlyData v y = encodeYearData y) ∧
      (layoutShapeAmended v = false → loadLayout v = DEFAULT_LAYOUT) ∧
      (slotsShapeClaim v = false → loadSlots v = DEFAULT_SLOTS) := by
  intro v y
  refine ⟨?_, ?_, ?_⟩
  · intro h
    rw [loadMonthlyData, if_neg]
    intro hv
    rw [isValidMonthlyData_shape v y hv] at h
    cases h
  · intro h
    rw [loadLayout, if_neg]
    intro hv
    rw [isValidLayout_shape v hv] at h
    cases h
  · intro h
    rw [loadSlots, if_neg]
    intro hv
    rw [isValidSlots_shape v hv] at h
    cases h

/-- C9 witness: a `null` record is rejected by all three loaders, which fall
back to the computed defaults. -/
theorem load_falls_back_to_defaults_witness :
    loadMonthlyData JsValue.vnull 2025 = encodeYearData 2025 ∧
      loadLayout JsValue.vnull = DEFAULT_LAYOUT ∧ loadSlots JsValue.vnull = DEFAULT_SLOTS := by
  have h := load_falls_back_to_defaults JsValue.vnull 2025
  exact ⟨h.1 (by decide), h.2.1 (by decide), h.2.2 (by decide)⟩

end SafetyDashboard
